import Mathlib

/-!
Verification of the spin-coater controller firmware (`src/fanControl.cc`).

The firmware is shallowly embedded: the process-wide globals
(`durationSeconds`, `isRunning`, `jobStartMs`, `jobDurationSeconds`,
`lastUiMs`) become a `FanState` record threaded explicitly; `millis()`
becomes an explicit clock argument; `analogRead` results and the polled
key become parameters of one superloop iteration.  C `int`/`long`
arithmetic is modelled on `Int` with `Int.tdiv` (truncation toward zero,
as in C); Arduino `unsigned long` (32-bit) subtraction is modelled by
`wsub`, modular subtraction in `2^32`.
-/

namespace FanControl

/-- `clampInt` from fanControl.cc. -/
def clampInt (v lo hi : Int) : Int :=
  if v < lo then lo
  else if v > hi then hi
  else v

/-- Arduino `map(x, in_min, in_max, out_min, out_max)`:
`(x - in_min) * (out_max - out_min) / (in_max - in_min) + out_min`
with C `long` division (truncation toward zero). -/
def arduinoMap (x inMin inMax outMin outMax : Int) : Int :=
  Int.tdiv ((x - inMin) * (outMax - outMin)) (inMax - inMin) + outMin

/-- `readPwmFromPots` from fanControl.cc, with the two raw ADC samples
(`analogRead(potCoarsePin)`, `analogRead(potFinePin)`) as parameters. -/
def readPwmFromPots (coarseRaw fineRaw : Int) : Int :=
  let coarseStep := arduinoMap coarseRaw 0 1023 0 15
  let fineStep := arduinoMap fineRaw 0 1023 0 15
  let basePwm := coarseStep * 16
  let pwm := basePwm + fineStep
  clampInt pwm 0 255

/-- `pwmCal` calibration array from fanControl.cc. -/
def pwmCal : List Int := [0, 60, 100, 140, 180, 220]

/-- `rpmCal` calibration array from fanControl.cc. -/
def rpmCal : List Int := [0, 800, 1500, 2200, 2900, 3500]

/-- The linear-interpolation formula of one calibration segment in
`estimateRpmFromPwm`: `y0 + ((pwm - x0) * (y1 - y0)) / (x1 - x0)` with
C `long` division. -/
def interpSeg (p x0 y0 x1 y1 : Int) : Int :=
  y0 + Int.tdiv ((p - x0) * (y1 - y0)) (x1 - x0)

/-- The `for` loop of `estimateRpmFromPwm`, walking consecutive
calibration pairs and returning at the first segment containing `p`;
the final `return 0` of the C function is the fall-through case. -/
def segLookup (p : Int) : List (Int × Int) → Int
  | a :: b :: rest =>
    if a.1 ≤ p ∧ p ≤ b.1 then interpSeg p a.1 a.2 b.1 b.2
    else segLookup p (b :: rest)
  | _ => 0

/-- `estimateRpmFromPwm` generalised over the calibration table (the C
function hard-codes `pwmCal`/`rpmCal`; the algorithm itself only uses
the table through indexing, which this transcribes): the two endpoint
guards `pwm <= pwmCal[0]` and `pwm >= pwmCal[CAL_N-1]`, then the
segment loop. -/
def estimateRpmT (tab : List (Int × Int)) (p : Int) : Int :=
  match tab with
  | [] => 0
  | a :: rest =>
    if p ≤ a.1 then a.2
    else if (rest.getLastD a).1 ≤ p then (rest.getLastD a).2
    else segLookup p (a :: rest)

/-- `estimateRpmFromPwm` from fanControl.cc, on its fixed table. -/
def estimateRpmFromPwm (p : Int) : Int :=
  estimateRpmT (pwmCal.zip rpmCal) p

/-- The mutable globals of fanControl.cc. -/
structure FanState where
  durationSeconds : Nat
  isRunning : Bool
  jobStartMs : Nat
  jobDurationSeconds : Nat
  lastUiMs : Nat

/-- Initial values of the globals at boot. -/
def bootState : FanState := ⟨0, false, 0, 0, 0⟩

/-- `2^32`, the modulus of Arduino `unsigned long`. -/
def u32 : Nat := 4294967296

/-- Unsigned 32-bit subtraction `a - b` (wrapping, as in
`millis() - jobStartMs` on `unsigned long`). -/
def wsub (a b : Nat) : Nat := (a + u32 - b) % u32

/-- `clearDuration` from fanControl.cc. -/
def clearDuration (s : FanState) : FanState :=
  { s with durationSeconds := 0 }

/-- `startJob` from fanControl.cc; `now` is the `millis()` reading. -/
def startJob (now : Nat) (s : FanState) : FanState :=
  if s.durationSeconds = 0 then s
  else { s with jobDurationSeconds := s.durationSeconds,
                jobStartMs := now,
                isRunning := true }

/-- `stopJob` from fanControl.cc. -/
def stopJob (s : FanState) : FanState :=
  { s with isRunning := false, jobDurationSeconds := 0 }

/-- `getRemainingSeconds` from fanControl.cc; `now` is `millis()`. -/
def getRemainingSeconds (s : FanState) (now : Nat) : Nat :=
  if s.isRunning = false then 0
  else
    let elapsedMs := wsub now s.jobStartMs
    let elapsedSec := elapsedMs / 1000
    if s.jobDurationSeconds ≤ elapsedSec then 0
    else s.jobDurationSeconds - elapsedSec

/-- Numeric value of a digit key, `key - '0'` in the C source. -/
def digitVal (k : Char) : Nat := k.toNat - '0'.toNat

/-- `handleKeypad` from fanControl.cc, with the polled key as a
parameter (`none` models `keypad.getKey()` returning `NO_KEY`). -/
def handleKeypad (key : Option Char) (now : Nat) (s : FanState) : FanState :=
  match key with
  | none => s
  | some k =>
    if s.isRunning = true then
      if k = 'D' then stopJob s else s
    else
      if '0' ≤ k ∧ k ≤ '9' then
        if s.durationSeconds ≤ 99999 then
          { s with durationSeconds := s.durationSeconds * 10 + digitVal k }
        else s
      else if k = '*' then clearDuration s
      else if k = '#' then startJob now s
      else s

/-- Line 1 written by `updateLcd`: `SPD `, percent right-padded to 3 by
the `< 100` / `< 10` space prints, `% `, rpm right-padded to 4, `R`. -/
def lcdLine1 (pwm : Int) : String :=
  let percent := Int.tdiv (pwm * 100) 255
  let rpmEst := estimateRpmFromPwm pwm
  "SPD " ++ (if percent < 100 then " " else "") ++ (if percent < 10 then " " else "")
    ++ toString percent ++ "% "
    ++ (if rpmEst < 1000 then " " else "") ++ (if rpmEst < 100 then " " else "")
    ++ (if rpmEst < 10 then " " else "") ++ toString rpmEst ++ "R"

/-- Line 2 written by `updateLcd`: when not running `"T {d}s"` followed
by the literal 11-space pad of the source, else `"RUN {rem}s left"`
followed by the literal 7-space pad. -/
def lcdLine2 (s : FanState) (remainingSec : Nat) : String :=
  if s.isRunning = false then
    "T " ++ toString s.durationSeconds ++ "s" ++ "           "
  else
    "RUN " ++ toString remainingSec ++ "s left" ++ "       "

/-- `updateLcd` from fanControl.cc, returning the two rendered lines. -/
def updateLcd (s : FanState) (pwm : Int) (remainingSec : Nat) : String × String :=
  (lcdLine1 pwm, lcdLine2 s remainingSec)

/-- The per-iteration inputs of `loop()`: the two ADC samples, the
polled key, and the `millis()` reading of this iteration. -/
structure LoopInput where
  coarseRaw : Int
  fineRaw : Int
  key : Option Char
  now : Nat

/-- The state after the keypad handling and countdown check of one
`loop()` iteration (the state at which the PWM write is decided). -/
def loopMidState (s : FanState) (inp : LoopInput) : FanState :=
  let s1 := handleKeypad inp.key inp.now s
  if s1.isRunning = true then
    if getRemainingSeconds s1 inp.now = 0 then stopJob s1 else s1
  else s1

/-- The duty value passed to `analogWrite` in one `loop()` iteration:
the pot command while running, else 0. -/
def loopWritten (s : FanState) (inp : LoopInput) : Int :=
  if (loopMidState s inp).isRunning = true then
    readPwmFromPots inp.coarseRaw inp.fineRaw
  else 0

/-- One iteration of `loop()` from fanControl.cc: returns the new
state, the PWM value written to the fan pin, and the rendered LCD lines
when the 100 ms UI gate passed (`none` when it did not). -/
def loopStep (s : FanState) (inp : LoopInput) : FanState × Int × Option (String × String) :=
  let pwm := readPwmFromPots inp.coarseRaw inp.fineRaw
  let s2 := loopMidState s inp
  let written := loopWritten s inp
  if 100 ≤ wsub inp.now s2.lastUiMs then
    let s3 := { s2 with lastUiMs := inp.now }
    (s3, written, some (updateLcd s3 pwm (getRemainingSeconds s3 inp.now)))
  else
    (s2, written, none)

/-- Iterated superloop from the given state. -/
def runLoop (s : FanState) (inputs : List LoopInput) : FanState :=
  inputs.foldl (fun st inp => (loopStep st inp).1) s

/-- Feeding a list of keys, one per iteration of `handleKeypad`. -/
def feedKeys (s : FanState) (now : Nat) (ks : List Char) : FanState :=
  ks.foldl (fun st k => handleKeypad (some k) now st) s

/-- Inputs of the run used to refute C2: enter `5`, start, abort 2 s in. -/
def c2AbortRun : List LoopInput :=
  [⟨0, 0, some '5', 0⟩, ⟨0, 0, some '#', 0⟩, ⟨0, 0, some 'D', 2000⟩]

lemma tdiv_le_tdiv_nonneg {a b c : Int} (ha : 0 ≤ a) (hab : a ≤ b) (hc : 0 < c) :
    a.tdiv c ≤ b.tdiv c := by
  rw [Int.tdiv_eq_ediv ha hc.le, Int.tdiv_eq_ediv (ha.trans hab) hc.le]
  exact Int.ediv_le_ediv hc hab

lemma arduinoMap_pot_eq (x : Int) :
    arduinoMap x 0 1023 0 15 = Int.tdiv (x * 15) 1023 := by
  simp [arduinoMap]

lemma arduinoMap_pot_bounds {x : Int} (h0 : 0 ≤ x) (h1 : x ≤ 1023) :
    0 ≤ arduinoMap x 0 1023 0 15 ∧ arduinoMap x 0 1023 0 15 ≤ 15 := by
  rw [arduinoMap_pot_eq]
  constructor
  · exact Int.tdiv_nonneg (mul_nonneg h0 (by norm_num)) (by norm_num)
  · calc Int.tdiv (x * 15) 1023
        ≤ Int.tdiv (1023 * 15) 1023 :=
          tdiv_le_tdiv_nonneg (mul_nonneg h0 (by norm_num))
            (mul_le_mul_of_nonneg_right h1 (by norm_num)) (by norm_num)
      _ = 15 := by decide

lemma clampInt_eq_self {v lo hi : Int} (h1 : lo ≤ v) (h2 : v ≤ hi) :
    clampInt v lo hi = v := by
  unfold clampInt
  rw [if_neg (by omega), if_neg (by omega)]

/-- C1 counterexample: at coarse raw 512 and fine raw 0 the composed
command is 112 (not the claimed 128: the code maps the pots through
Arduino `map`, i.e. `raw * 15 / 1023`, not `floor(raw * 16 / 1024)`),
and the displayed duty percent is 43 (not 50). -/
theorem readPwmFromPots_spec_value_false :
    readPwmFromPots 512 0 = 112 ∧ readPwmFromPots 512 0 ≠ 128 ∧
    Int.tdiv (readPwmFromPots 512 0 * 100) 255 = 43 := by decide

/-- C1 (amended): for every coarseRaw and fineRaw in [0, 1023] the PWM
command equals `coarseStep * 16 + fineStep` where
`coarseStep = floor(coarseRaw * 15 / 1023)` and
`fineStep = floor(fineRaw * 15 / 1023)` (Arduino `map` onto 0..15;
the final clamp to [0, 255] is the identity there), and the command
lies in [0, 255]. -/
theorem readPwmFromPots_formula (c f : Int) (hc0 : 0 ≤ c) (hc1 : c ≤ 1023)
    (hf0 : 0 ≤ f) (hf1 : f ≤ 1023) :
    readPwmFromPots c f = Int.tdiv (c * 15) 1023 * 16 + Int.tdiv (f * 15) 1023 ∧
    0 ≤ readPwmFromPots c f ∧ readPwmFromPots c f ≤ 255 := by
  obtain ⟨hcl, hcu⟩ := arduinoMap_pot_bounds hc0 hc1
  obtain ⟨hfl, hfu⟩ := arduinoMap_pot_bounds hf0 hf1
  have key : readPwmFromPots c f
      = arduinoMap c 0 1023 0 15 * 16 + arduinoMap f 0 1023 0 15 := by
    simp only [readPwmFromPots]
    exact clampInt_eq_self (by omega) (by omega)
  refine ⟨?_, ?_, ?_⟩
  · rw [key, arduinoMap_pot_eq, arduinoMap_pot_eq]
  · omega
  · omega

theorem readPwmFromPots_formula_witness :
    readPwmFromPots 512 0 = Int.tdiv (512 * 15) 1023 * 16 + Int.tdiv (0 * 15) 1023 ∧
    0 ≤ readPwmFromPots 512 0 ∧ readPwmFromPots 512 0 ≤ 255 :=
  readPwmFromPots_formula 512 0 (by decide) (by decide) (by decide) (by decide)

/-- C2 counterexample: entering `5`, starting, then aborting with `D`
returns the machine to Idle with the latched duration cleared, but the
*entered* duration is still 5, not 0 (`stopJob` clears only
`jobDurationSeconds`). -/
theorem abort_keeps_entered_duration :
    (runLoop bootState c2AbortRun).isRunning = false ∧
    (runLoop bootState c2AbortRun).jobDurationSeconds = 0 ∧
    (runLoop bootState c2AbortRun).durationSeconds = 5 ∧
    (runLoop bootState c2AbortRun).durationSeconds ≠ 0 := by decide

/-- C2 (amended): both the abort transition (key `D` while Running) and
the natural-completion transition (remaining seconds 0 while Running)
leave the machine in Idle with the *latched* duration equal to 0; the
entered duration is retained unchanged. -/
theorem stop_transitions (s : FanState) (inp : LoopInput)
    (hrun : s.isRunning = true)
    (hstop : inp.key = some 'D' ∨
      (inp.key = none ∧ getRemainingSeconds s inp.now = 0)) :
    (loopStep s inp).1.isRunning = false ∧
    (loopStep s inp).1.jobDurationSeconds = 0 ∧
    (loopStep s inp).1.durationSeconds = s.durationSeconds := by
  have hmid : loopMidState s inp = stopJob s := by
    rcases hstop with hk | ⟨hk, hrem⟩
    · simp only [loopMidState, handleKeypad, hk, hrun, if_pos rfl, if_true]
      simp [stopJob]
    · simp only [loopMidState, handleKeypad, hk, hrun, if_true, hrem, if_pos rfl]
  simp only [loopStep, hmid]
  split_ifs <;> simp [stopJob]

theorem stop_transitions_witness :
    (loopStep ⟨5, true, 0, 5, 0⟩ ⟨0, 0, some 'D', 2000⟩).1.isRunning = false ∧
    (loopStep ⟨5, true, 0, 5, 0⟩ ⟨0, 0, some 'D', 2000⟩).1.jobDurationSeconds = 0 ∧
    (loopStep ⟨5, true, 0, 5, 0⟩ ⟨0, 0, some 'D', 2000⟩).1.durationSeconds
      = (⟨5, true, 0, 5, 0⟩ : FanState).durationSeconds :=
  stop_transitions ⟨5, true, 0, 5, 0⟩ ⟨0, 0, some 'D', 2000⟩ rfl (Or.inl rfl)

lemma estimateRpmT_of_le_head (a : Int × Int) (rest : List (Int × Int))
    {p : Int} (hp : p ≤ a.1) : estimateRpmT (a :: rest) p = a.2 := by
  simp only [estimateRpmT, if_pos hp]

lemma estimateRpmT_of_last_le (a : Int × Int) (rest : List (Int × Int))
    {p : Int} (hp1 : ¬ p ≤ a.1) (hp2 : (rest.getLastD a).1 ≤ p) :
    estimateRpmT (a :: rest) p = (rest.getLastD a).2 := by
  simp only [estimateRpmT, if_neg hp1, if_pos hp2]

/-- C5: on the fixed calibration table, `estimateRpmFromPwm` returns the
first rpm (0) for every pwm at or below the first table pwm (0), the
last rpm (3500) for every pwm at or above the last table pwm (220), and
the exact tabulated rpm at every tabulated pwm; moreover at each
breakpoint both adjacent segment formulas yield the tabulated value. -/
theorem estimateRpm_endpoints_exact :
    (∀ p : Int, p ≤ 0 → estimateRpmFromPwm p = 0) ∧
    (∀ p : Int, 220 ≤ p → estimateRpmFromPwm p = 3500) ∧
    (∀ pr ∈ pwmCal.zip rpmCal, estimateRpmFromPwm pr.1 = pr.2) ∧
    (∀ pq ∈ (pwmCal.zip rpmCal).zip ((pwmCal.zip rpmCal).tail),
      interpSeg pq.1.1 pq.1.1 pq.1.2 pq.2.1 pq.2.2 = pq.1.2 ∧
      interpSeg pq.2.1 pq.1.1 pq.1.2 pq.2.1 pq.2.2 = pq.2.2) := by
  refine ⟨?_, ?_, by decide, by decide⟩
  · intro p hp
    exact estimateRpmT_of_le_head (0, 0)
      [(60, 800), (100, 1500), (140, 2200), (180, 2900), (220, 3500)] hp
  · intro p hp
    exact estimateRpmT_of_last_le (0, 0)
      [(60, 800), (100, 1500), (140, 2200), (180, 2900), (220, 3500)]
      (by omega) hp

theorem estimateRpm_endpoints_exact_witness :
    estimateRpmFromPwm (-3) = 0 ∧ estimateRpmFromPwm 255 = 3500 :=
  ⟨estimateRpm_endpoints_exact.1 (-3) (by decide),
   estimateRpm_endpoints_exact.2.1 255 (by decide)⟩

lemma loopStep_fst_isRunning (s : FanState) (inp : LoopInput) :
    (loopStep s inp).1.isRunning = (loopMidState s inp).isRunning := by
  simp only [loopStep]
  split_ifs <;> rfl

lemma loopStep_written (s : FanState) (inp : LoopInput) :
    (loopStep s inp).2.1 = loopWritten s inp := by
  simp only [loopStep]
  split_ifs <;> rfl

/-- C7: in any superloop iteration whose PWM write happens while the
machine is Idle, the written value is 0 regardless of the pot samples;
while Running the written value is the composed pot command. -/
theorem idle_writes_zero (s : FanState) (inp : LoopInput) :
    ((loopStep s inp).1.isRunning = false → (loopStep s inp).2.1 = 0) ∧
    ((loopStep s inp).1.isRunning = true →
      (loopStep s inp).2.1 = readPwmFromPots inp.coarseRaw inp.fineRaw) := by
  rw [loopStep_fst_isRunning, loopStep_written]
  constructor <;> intro h <;> simp [loopWritten, h]

theorem idle_writes_zero_witness :
    (loopStep bootState ⟨512, 0, none, 0⟩).2.1 = 0 :=
  (idle_writes_zero bootState ⟨512, 0, none, 0⟩).1 (by decide)

/-- C9 counterexample: the rendered line 2 is not a fixed-width
16-character string: at boot (Idle, duration 0) it has 15 characters,
and a Running render with a 2-digit remaining time has 19. -/
theorem lcdLine2_not_sixteen :
    (lcdLine2 bootState 0).length = 15 ∧ (lcdLine2 bootState 0).length ≠ 16 ∧
    (lcdLine2 ⟨0, true, 0, 5, 0⟩ 30).length = 19 := by decide

/-- C9 (amended): line 2 is `T {d}s` followed by a fixed 11-space pad
when Idle (total `14 + digits(d)` characters) and `RUN {rem}s left`
followed by a fixed 7-space pad when Running (total
`17 + digits(rem)`); it is exactly 16 characters only when the printed
number has the matching width, so a render does not always overwrite
all 16 columns. -/
theorem lcdLine2_lengths (s : FanState) (rem : Nat) :
    (s.isRunning = false →
      (lcdLine2 s rem).length = 14 + (toString s.durationSeconds).length) ∧
    (s.isRunning = true →
      (lcdLine2 s rem).length = 17 + (toString rem).length) := by
  have e1 : ("T ").length = 2 := rfl
  have e2 : ("s").length = 1 := rfl
  have e3 : ("           ").length = 11 := rfl
  have e4 : ("RUN ").length = 4 := rfl
  have e5 : ("s left").length = 6 := rfl
  have e6 : ("       ").length = 7 := rfl
  constructor <;> intro h
  · simp only [lcdLine2]
    rw [if_pos h]
    simp only [String.length_append, e1, e2, e3, e4, e5, e6]
    omega
  · simp only [lcdLine2]
    rw [if_neg (by simp [h])]
    simp only [String.length_append, e1, e2, e3, e4, e5, e6]
    omega

theorem lcdLine2_lengths_witness :
    (lcdLine2 bootState 0).length = 14 + (toString bootState.durationSeconds).length :=
  (lcdLine2_lengths bootState 0).1 rfl

/-- C3: `getRemainingSeconds` returns 0 when Idle, and
`max 0 (latched - floor(elapsedMs / 1000))` when Running, where
`elapsedMs` is the modular 32-bit difference `now - jobStartMs`; and
that modular difference recovers the true elapsed time even when the
clock wrapped once during the job. -/
theorem getRemainingSeconds_spec (s : FanState) (now : Nat) :
    ((getRemainingSeconds s now : Int) =
      if s.isRunning = true then
        max 0 ((s.jobDurationSeconds : Int) - ((wsub now s.jobStartMs / 1000 : Nat) : Int))
      else 0) ∧
    (∀ e : Nat, s.jobStartMs < u32 → e < u32 →
      wsub ((s.jobStartMs + e) % u32) s.jobStartMs = e) := by
  constructor
  · by_cases hr : s.isRunning = true
    · rw [if_pos hr]
      simp only [getRemainingSeconds, hr]
      norm_num
      split_ifs with h <;> omega
    · rw [if_neg hr]
      rw [Bool.not_eq_true] at hr
      simp [getRemainingSeconds, hr]
  · intro e h1 h2
    simp only [wsub, u32] at h1 h2 ⊢
    omega

theorem getRemainingSeconds_spec_witness :
    wsub (((5 : Nat) + 7) % u32) 5 = 7 :=
  (getRemainingSeconds_spec ⟨0, false, 5, 0, 0⟩ 0).2 7 (by decide) (by decide)

lemma digit_step_bound {s : FanState} {k : Char}
    (hk : '0' ≤ k ∧ k ≤ '9') (hrun : s.isRunning = false)
    (hd : s.durationSeconds ≤ 999999) (now : Nat) :
    (handleKeypad (some k) now s).isRunning = false ∧
    (handleKeypad (some k) now s).durationSeconds ≤ 999999 := by
  have hk9 : digitVal k ≤ 9 := by
    have h9 : k.toNat ≤ 57 := Char.le_def.mp hk.2
    have h0 : ('0').toNat = 48 := rfl
    simp only [digitVal]
    omega
  simp only [handleKeypad, hrun]
  norm_num
  rw [if_pos hk]
  split_ifs with h
  · refine ⟨rfl, ?_⟩
    simp only
    omega
  · exact ⟨hrun, hd⟩

lemma digits_feed (ks : List Char) : ∀ (s : FanState) (now : Nat),
    (∀ k ∈ ks, '0' ≤ k ∧ k ≤ '9') →
    s.isRunning = false → s.durationSeconds ≤ 999999 →
    (feedKeys s now ks).isRunning = false ∧
    (feedKeys s now ks).durationSeconds ≤ 999999 := by
  induction ks with
  | nil => exact fun s now _ h1 h2 => ⟨h1, h2⟩
  | cons k ks ih =>
    intro s now hks h1 h2
    have hk := hks k (List.mem_cons_self k ks)
    obtain ⟨hr', hd'⟩ := digit_step_bound hk h1 h2 now
    exact ih (handleKeypad (some k) now s) now
      (fun x hx => hks x (List.mem_cons_of_mem _ hx)) hr' hd'

/-- C4: any sequence of digit keys fed from boot leaves the entered
duration at most 999999 (a digit is appended only while the current
value is at most 99999, otherwise it is dropped), and seven consecutive
`9` presses yield exactly 999999 (the seventh is dropped). -/
theorem enteredDuration_bounded (ks : List Char)
    (hks : ∀ k ∈ ks, '0' ≤ k ∧ k ≤ '9') :
    (feedKeys bootState 0 ks).durationSeconds ≤ 999999 ∧
    (feedKeys bootState 0 (List.replicate 7 '9')).durationSeconds = 999999 :=
  ⟨(digits_feed ks bootState 0 hks rfl (by decide)).2, by decide⟩

theorem enteredDuration_bounded_witness :
    (feedKeys bootState 0 ['9', '9', '9', '9', '9', '9', '9']).durationSeconds ≤ 999999 ∧
    (feedKeys bootState 0 (List.replicate 7 '9')).durationSeconds = 999999 :=
  enteredDuration_bounded ['9', '9', '9', '9', '9', '9', '9'] (by decide)

lemma handleKeypad_lastUiMs (key : Option Char) (now : Nat) (s : FanState) :
    (handleKeypad key now s).lastUiMs = s.lastUiMs := by
  cases key with
  | none => rfl
  | some k =>
    simp only [handleKeypad, stopJob, clearDuration, startJob]
    split_ifs <;> rfl

lemma loopMidState_lastUiMs (s : FanState) (inp : LoopInput) :
    (loopMidState s inp).lastUiMs = s.lastUiMs := by
  simp only [loopMidState]
  split_ifs <;> simp [stopJob, handleKeypad_lastUiMs]

/-- C8: in any superloop iteration the LCD is re-rendered exactly when
`now - lastUiMs >= 100` holds in modular 32-bit arithmetic, in which
case `lastUiMs` is set to the render time (else left unchanged); in
particular, absent a wrap, consecutive renders are at least 100 ms
apart on the monotonic clock. -/
theorem ui_rate_limit (s : FanState) (inp : LoopInput) :
    ((loopStep s inp).2.2.isSome = true ↔ 100 ≤ wsub inp.now s.lastUiMs) ∧
    ((loopStep s inp).2.2.isSome = true → (loopStep s inp).1.lastUiMs = inp.now) ∧
    ((loopStep s inp).2.2.isSome = false → (loopStep s inp).1.lastUiMs = s.lastUiMs) ∧
    (s.lastUiMs ≤ inp.now → inp.now - s.lastUiMs < u32 →
      (loopStep s inp).2.2.isSome = true → s.lastUiMs + 100 ≤ inp.now) := by
  have hmid := loopMidState_lastUiMs s inp
  simp only [loopStep, hmid]
  split_ifs with h
  · refine ⟨by simp [h], fun _ => rfl, by simp, fun h1 h2 _ => ?_⟩
    simp only [wsub, u32] at h
    omega
  · exact ⟨by simp [h], by simp, fun _ => hmid, fun h1 h2 hx => absurd hx (by simp)⟩

theorem ui_rate_limit_witness :
    (loopStep bootState ⟨0, 0, none, 500⟩).1.lastUiMs = 500 :=
  (ui_rate_limit bootState ⟨0, 0, none, 500⟩).2.1 (by decide)

/-- The invariant of C10: a running machine has a positive latched
duration. -/
def RunInv (s : FanState) : Prop := s.isRunning = true → 1 ≤ s.jobDurationSeconds

lemma handleKeypad_runinv (key : Option Char) (now : Nat) (s : FanState)
    (hs : RunInv s) : RunInv (handleKeypad key now s) := by
  cases key with
  | none => exact hs
  | some k =>
    simp only [handleKeypad]
    split_ifs with h1 h2 h3 h4 h5 h6
    · intro hh; simp [stopJob] at hh
    · exact hs
    · intro hh; exact absurd hh h1
    · exact hs
    · intro hh; exact absurd hh h1
    · simp only [startJob]
      split_ifs with h7
      · exact hs
      · intro _
        exact Nat.one_le_iff_ne_zero.mpr h7
    · exact hs

lemma loopStep_runinv (s : FanState) (inp : LoopInput) (hs : RunInv s) :
    RunInv (loopStep s inp).1 := by
  have h1 : RunInv (loopMidState s inp) := by
    simp only [loopMidState]
    split_ifs with ha hb
    · intro hh; simp [stopJob] at hh
    · exact handleKeypad_runinv _ _ _ hs
    · exact handleKeypad_runinv _ _ _ hs
  simp only [loopStep]
  split_ifs with h
  · exact fun hh => h1 hh
  · exact h1

lemma runLoop_runinv (inputs : List LoopInput) : ∀ (s : FanState),
    RunInv s → RunInv (runLoop s inputs) := by
  induction inputs with
  | nil => exact fun s hs => hs
  | cons i l ih => exact fun s hs => ih _ (loopStep_runinv s i hs)

/-- C10: in every state reachable from boot by any sequence of loop
iterations (with arbitrary pot samples, keys and clock readings),
`isRunning = true` implies the latched job duration is at least 1. -/
theorem running_implies_latched_pos (inputs : List LoopInput)
    (h : (runLoop bootState inputs).isRunning = true) :
    1 ≤ (runLoop bootState inputs).jobDurationSeconds :=
  runLoop_runinv inputs bootState (fun hh => absurd hh (by decide)) h

theorem running_implies_latched_pos_witness :
    1 ≤ (runLoop bootState [⟨0, 0, some '5', 0⟩, ⟨0, 0, some '#', 0⟩]).jobDurationSeconds :=
  running_implies_latched_pos [⟨0, 0, some '5', 0⟩, ⟨0, 0, some '#', 0⟩] (by decide)

/-- One step of a calibration table that is strictly increasing in both
coordinates. -/
def stepRel (a b : Int × Int) : Prop := a.1 < b.1 ∧ a.2 < b.2

lemma chain'_and {α : Type} {R S : α → α → Prop} :
    ∀ (l : List α), List.Chain' R l → List.Chain' S l →
      List.Chain' (fun a b => R a b ∧ S a b) l
  | [] => fun _ _ => List.chain'_nil
  | [a] => fun _ _ => List.chain'_singleton a
  | a :: b :: l => fun h1 h2 => by
      rw [List.chain'_cons] at h1 h2 ⊢
      exact ⟨⟨h1.1, h2.1⟩, chain'_and (b :: l) h1.2 h2.2⟩

lemma chain_le_getLastD : ∀ (l : List (Int × Int)) (a : Int × Int),
    List.Chain' stepRel (a :: l) →
    a.1 ≤ (l.getLastD a).1 ∧ a.2 ≤ (l.getLastD a).2
  | [], a, _ => ⟨le_refl _, le_refl _⟩
  | b :: l, a, h => by
      rw [List.getLastD_cons]
      obtain ⟨hab, h'⟩ := List.chain'_cons.mp h
      have h2 := chain_le_getLastD l b h'
      exact ⟨hab.1.le.trans h2.1, hab.2.le.trans h2.2⟩

lemma interpSeg_ge_left {p x0 y0 x1 y1 : Int} (h0 : x0 ≤ p) (hy : y0 < y1)
    (hx : x0 < x1) : y0 ≤ interpSeg p x0 y0 x1 y1 := by
  unfold interpSeg
  have hnum : 0 ≤ (p - x0) * (y1 - y0) := mul_nonneg (by omega) (by omega)
  have := Int.tdiv_nonneg hnum (by omega : (0:Int) ≤ x1 - x0)
  omega

lemma interpSeg_le_right {p x0 y0 x1 y1 : Int} (h0 : x0 ≤ p) (hp : p ≤ x1)
    (hy : y0 < y1) (hx : x0 < x1) : interpSeg p x0 y0 x1 y1 ≤ y1 := by
  unfold interpSeg
  have h1 : Int.tdiv ((p - x0) * (y1 - y0)) (x1 - x0)
      ≤ Int.tdiv ((x1 - x0) * (y1 - y0)) (x1 - x0) :=
    tdiv_le_tdiv_nonneg (mul_nonneg (by omega) (by omega))
      (mul_le_mul_of_nonneg_right (by omega) (by omega)) (by omega)
  have h2 : Int.tdiv ((x1 - x0) * (y1 - y0)) (x1 - x0) = y1 - y0 :=
    Int.mul_tdiv_cancel_left _ (by omega)
  omega

lemma interpSeg_mono {p q x0 y0 x1 y1 : Int} (h0 : x0 ≤ p) (hpq : p ≤ q)
    (hy : y0 < y1) (hx : x0 < x1) :
    interpSeg p x0 y0 x1 y1 ≤ interpSeg q x0 y0 x1 y1 := by
  unfold interpSeg
  have h1 : Int.tdiv ((p - x0) * (y1 - y0)) (x1 - x0)
      ≤ Int.tdiv ((q - x0) * (y1 - y0)) (x1 - x0) :=
    tdiv_le_tdiv_nonneg (mul_nonneg (by omega) (by omega))
      (mul_le_mul_of_nonneg_right (by omega) (by omega)) (by omega)
  omega

lemma segLookup_ge (p : Int) : ∀ (l : List (Int × Int)) (a : Int × Int),
    List.Chain' stepRel (a :: l) → a.1 ≤ p → p < (l.getLastD a).1 →
    a.2 ≤ segLookup p (a :: l)
  | [], a, _, h1, h2 => by
      simp only [List.getLastD_nil] at h2
      omega
  | b :: l, a, hch, h1, h2 => by
      rw [List.getLastD_cons] at h2
      obtain ⟨hab, hch'⟩ := List.chain'_cons.mp hch
      simp only [segLookup]
      split_ifs with h
      · exact interpSeg_ge_left h1 hab.2 hab.1
      · have hb : b.1 ≤ p := by
          rcases not_and_or.mp h with h' | h'
          · exact absurd h1 h'
          · omega
        exact hab.2.le.trans (segLookup_ge p l b hch' hb h2)

lemma segLookup_le (p : Int) : ∀ (l : List (Int × Int)) (a : Int × Int),
    List.Chain' stepRel (a :: l) → a.1 ≤ p → p < (l.getLastD a).1 →
    segLookup p (a :: l) ≤ (l.getLastD a).2
  | [], a, _, h1, h2 => by
      simp only [List.getLastD_nil] at h2 ⊢
      omega
  | b :: l, a, hch, h1, h2 => by
      rw [List.getLastD_cons] at h2 ⊢
      obtain ⟨hab, hch'⟩ := List.chain'_cons.mp hch
      have hlast := chain_le_getLastD l b hch'
      simp only [segLookup]
      split_ifs with h
      · exact (interpSeg_le_right h1 h.2 hab.2 hab.1).trans hlast.2
      · have hb : b.1 ≤ p := by
          rcases not_and_or.mp h with h' | h'
          · exact absurd h1 h'
          · omega
        exact segLookup_le p l b hch' hb h2

lemma segLookup_mono (p q : Int) : ∀ (l : List (Int × Int)) (a : Int × Int),
    List.Chain' stepRel (a :: l) → a.1 ≤ p → p ≤ q → q < (l.getLastD a).1 →
    segLookup p (a :: l) ≤ segLookup q (a :: l)
  | [], a, _, h1, hpq, h3 => by
      simp only [List.getLastD_nil] at h3
      omega
  | b :: l, a, hch, h1, hpq, h3 => by
      rw [List.getLastD_cons] at h3
      obtain ⟨hab, hch'⟩ := List.chain'_cons.mp hch
      simp only [segLookup]
      by_cases hP : a.1 ≤ p ∧ p ≤ b.1
      · rw [if_pos hP]
        by_cases hQ : a.1 ≤ q ∧ q ≤ b.1
        · rw [if_pos hQ]
          exact interpSeg_mono hP.1 hpq hab.2 hab.1
        · rw [if_neg hQ]
          have hq : b.1 ≤ q := by
            rcases not_and_or.mp hQ with h' | h'
            · exact absurd (h1.trans hpq) h'
            · omega
          exact (interpSeg_le_right hP.1 hP.2 hab.2 hab.1).trans
            (segLookup_ge q l b hch' hq h3)
      · rw [if_neg hP]
        have hbp : b.1 < p := by
          rcases not_and_or.mp hP with h' | h'
          · exact absurd h1 h'
          · omega
        have hQ : ¬ (a.1 ≤ q ∧ q ≤ b.1) := by
          intro hc
          omega
        rw [if_neg hQ]
        exact segLookup_mono p q l b hch' hbp.le hpq h3

lemma estimateRpmT_mono_aux (tab : List (Int × Int))
    (h : List.Chain' stepRel tab) {p q : Int} (hpq : p ≤ q) :
    estimateRpmT tab p ≤ estimateRpmT tab q := by
  cases tab with
  | nil => simp [estimateRpmT]
  | cons a rest =>
    have hlast := chain_le_getLastD rest a h
    simp only [estimateRpmT]
    by_cases hp1 : p ≤ a.1
    · rw [if_pos hp1]
      by_cases hq1 : q ≤ a.1
      · rw [if_pos hq1]
      · rw [if_neg hq1]
        by_cases hq2 : (rest.getLastD a).1 ≤ q
        · rw [if_pos hq2]
          exact hlast.2
        · rw [if_neg hq2]
          exact segLookup_ge q rest a h (by omega) (by omega)
    · rw [if_neg hp1]
      have hq1 : ¬ q ≤ a.1 := by omega
      rw [if_neg hq1]
      by_cases hp2 : (rest.getLastD a).1 ≤ p
      · rw [if_pos hp2, if_pos (show (rest.getLastD a).1 ≤ q by omega)]
      · rw [if_neg hp2]
        by_cases hq2 : (rest.getLastD a).1 ≤ q
        · rw [if_pos hq2]
          exact segLookup_le p rest a h (by omega) (by omega)
        · rw [if_neg hq2]
          exact segLookup_mono p q rest a h (by omega) hpq (by omega)

/-- C6: if the calibration table is strictly increasing in both its pwm
and its rpm coordinates, then the piecewise-linear RPM estimate
computed by the `estimateRpmFromPwm` algorithm is nondecreasing in the
PWM command. -/
theorem estimateRpm_monotone (tab : List (Int × Int))
    (hx : List.Chain' (fun a b => a.1 < b.1) tab)
    (hy : List.Chain' (fun a b => a.2 < b.2) tab)
    (p q : Int) (hpq : p ≤ q) :
    estimateRpmT tab p ≤ estimateRpmT tab q :=
  estimateRpmT_mono_aux tab (chain'_and tab hx hy) hpq

theorem estimateRpm_monotone_witness :
    estimateRpmFromPwm 100 ≤ estimateRpmFromPwm 128 :=
  estimateRpm_monotone (pwmCal.zip rpmCal)
    (by
      show List.Chain' (fun a b => a.1 < b.1)
        [((0:Int), (0:Int)), (60, 800), (100, 1500), (140, 2200), (180, 2900), (220, 3500)]
      simp only [List.chain'_cons, List.chain'_singleton, and_true]
      norm_num)
    (by
      show List.Chain' (fun a b => a.2 < b.2)
        [((0:Int), (0:Int)), (60, 800), (100, 1500), (140, 2200), (180, 2900), (220, 3500)]
      simp only [List.chain'_cons, List.chain'_singleton, and_true]
      norm_num)
    100 128 (by norm_num)

end FanControl
